import Mathlib

set_option autoImplicit false

namespace RNStorage

/-- Entry type `CacheEntry<T>` from `src/cache/domain/types/Cache.ts`.
Timestamps and TTLs are JS `number`s used with subtraction and order
comparisons; we model them as `Int`. -/
structure CacheEntry (T : Type) where
  value : T
  timestamp : Int
  ttl : Int
  accessCount : Nat
  lastAccess : Int
  deriving Repr, DecidableEq

/-- Counter record `CacheStats` from `src/cache/domain/types/Cache.ts`,
maintained by `CacheStatsTracker`. -/
structure CacheStats where
  size : Nat
  hits : Nat
  misses : Nat
  evictions : Nat
  expirations : Nat
  deriving Repr, DecidableEq

/-- Instrumentation of the `onEvict` / `onExpire` callback invocations:
each call the engine makes is recorded as one event. -/
inductive CEvent (T : Type) where
  | evict (key : String) (entry : CacheEntry T)
  | expire (key : String) (entry : CacheEntry T)
  deriving Repr, DecidableEq

/-- The resolved `Required<CacheConfig>` built by the `Cache` constructor
(callbacks are modelled by the event log instead of function fields). -/
structure ResolvedConfig where
  maxSize : Nat
  defaultTTL : Int
  deriving Repr, DecidableEq

/-- Constructor resolution `maxSize: config.maxSize || 100` and
`defaultTTL: config.defaultTTL || 5 * 60 * 1000` (JS `||`: `0` is falsy). -/
def resolveConfig (maxSize? : Option Nat) (defaultTTL? : Option Int) : ResolvedConfig :=
  { maxSize := match maxSize? with
      | some m => if m = 0 then 100 else m
      | none => 100,
    defaultTTL := match defaultTTL? with
      | some t => if t = 0 then 5 * 60 * 1000 else t
      | none => 5 * 60 * 1000 }

/-- JS `Map.get` on an insertion-ordered association list
(the `store` field of `Cache` is a `Map<string, CacheEntry<T>>`). -/
def mapGet {E : Type} (k : String) : List (String × E) → Option E
  | [] => none
  | (k₁, e) :: rest => if k₁ = k then some e else mapGet k rest

/-- JS `Map.has`. -/
def mapHas {E : Type} (k : String) (l : List (String × E)) : Bool :=
  (mapGet k l).isSome

/-- JS `Map.set`: overwrites in place when the key is present (keeping
its insertion position), otherwise appends at the end. -/
def mapSet {E : Type} (k : String) (v : E) : List (String × E) → List (String × E)
  | [] => [(k, v)]
  | (k₁, e) :: rest => if k₁ = k then (k, v) :: rest else (k₁, e) :: mapSet k v rest

/-- JS `Map.delete`: removes the entry at the key, if present. -/
def mapDelete {E : Type} (k : String) : List (String × E) → List (String × E)
  | [] => []
  | (k₁, e) :: rest => if k₁ = k then rest else (k₁, e) :: mapDelete k rest

/-- The in-memory cache engine `Cache<T>` from `src/cache/domain/Cache.ts`:
entry map, resolved config, stats tracker state, plus the callback event log. -/
structure Cache (T : Type) where
  store : List (String × CacheEntry T)
  config : ResolvedConfig
  stats : CacheStats
  events : List (CEvent T)
  deriving Repr, DecidableEq

/-- A freshly constructed cache (`new Cache(config)`): empty store, zero stats. -/
def mkCache {T : Type} (cfg : ResolvedConfig) : Cache T :=
  { store := [], config := cfg,
    stats := { size := 0, hits := 0, misses := 0, evictions := 0, expirations := 0 },
    events := [] }

/-- `Cache.isExpired`: `Date.now() - entry.timestamp > entry.ttl`. -/
def isExpired {T : Type} (now : Int) (entry : CacheEntry T) : Bool :=
  decide (now - entry.timestamp > entry.ttl)

/-- The shared scan of `LRUStrategy` / `LFUStrategy` / `TTLStrategy`
(`findKeyToEvict`): start from `Infinity` (modelled by the `none`
accumulator, which any first entry beats) and keep the entry with the
strictly smallest metric, so ties keep the earlier entry. -/
def stepMin {T : Type} (f : CacheEntry T → Int)
    (best : Option (String × Int)) (p : String × CacheEntry T) :
    Option (String × Int) :=
  match best with
  | none => some (p.1, f p.2)
  | some (bk, bm) => if f p.2 < bm then some (p.1, f p.2) else some (bk, bm)

/-- The loop of the three scanning strategies, as a fold of `stepMin`. -/
def findMinFold {T : Type} (f : CacheEntry T → Int)
    (entries : List (String × CacheEntry T)) : Option String :=
  (entries.foldl (stepMin f) none).map Prod.fst

/-- `LRUStrategy.findKeyToEvict` from `LRUStrategy.ts`: minimum `lastAccess`. -/
def LRUStrategy.findKeyToEvict {T : Type} (entries : List (String × CacheEntry T)) :
    Option String :=
  findMinFold (fun e => e.lastAccess) entries

/-- `LFUStrategy.findKeyToEvict` from `LFUStrategy.ts`: minimum `accessCount`. -/
def LFUStrategy.findKeyToEvict {T : Type} (entries : List (String × CacheEntry T)) :
    Option String :=
  findMinFold (fun e => (e.accessCount : Int)) entries

/-- `TTLStrategy.findKeyToEvict` from `TTLStrategy.ts`: minimum
`entry.timestamp + entry.ttl` (soonest expiry). -/
def TTLStrategy.findKeyToEvict {T : Type} (entries : List (String × CacheEntry T)) :
    Option String :=
  findMinFold (fun e => e.timestamp + e.ttl) entries

/-- `FIFOStrategy.findKeyToEvict` from `FIFOStrategy.ts`:
`entries.keys().next().value`, the first key in insertion order. -/
def FIFOStrategy.findKeyToEvict {T : Type} (entries : List (String × CacheEntry T)) :
    Option String :=
  entries.head?.map Prod.fst

/-- `Cache.evictOne` (the `set` path hard-codes the `lru` strategy).
The JS guard `if (keyToEvict)` is falsy both for `undefined` and for the
empty string, so an empty-string victim key skips the eviction. -/
def evictOne {T : Type} (s : Cache T) : Cache T :=
  match LRUStrategy.findKeyToEvict s.store with
  | none => s
  | some keyToEvict =>
    if keyToEvict = "" then s
    else
      let entry := mapGet keyToEvict s.store
      let store₁ := mapDelete keyToEvict s.store
      let s₁ : Cache T :=
        { s with store := store₁,
                 stats := { s.stats with evictions := s.stats.evictions + 1,
                                         size := store₁.length } }
      match entry with
      | some e => { s₁ with events := s₁.events ++ [CEvent.evict keyToEvict e] }
      | none => s₁

/-- `Cache.set(key, value, ttl?)`. The stored TTL is the JS expression
`ttl || this.config.defaultTTL` (an explicit `0` is falsy and falls back
to the default). -/
def Cache.set {T : Type} (now : Int) (k : String) (v : T) (ttl : Option Int)
    (s : Cache T) : Cache T :=
  let s₁ := if s.store.length ≥ s.config.maxSize ∧ mapHas k s.store = false
            then evictOne s else s
  let entry : CacheEntry T :=
    { value := v, timestamp := now,
      ttl := match ttl with
             | some t => if t = 0 then s₁.config.defaultTTL else t
             | none => s₁.config.defaultTTL,
      accessCount := 0, lastAccess := now }
  let store₁ := mapSet k entry s₁.store
  { s₁ with store := store₁, stats := { s₁.stats with size := store₁.length } }

/-- `Cache.delete(key)`: returns whether a removal occurred and updates
the size stat only in that case. -/
def Cache.delete {T : Type} (k : String) (s : Cache T) : Bool × Cache T :=
  let store₁ := mapDelete k s.store
  if mapHas k s.store then
    (true, { s with store := store₁, stats := { s.stats with size := store₁.length } })
  else
    (false, s)

/-- `Cache.get(key)`: lazy expiration on read. -/
def Cache.get {T : Type} (now : Int) (k : String) (s : Cache T) :
    Option T × Cache T :=
  match mapGet k s.store with
  | none => (none, { s with stats := { s.stats with misses := s.stats.misses + 1 } })
  | some entry =>
    if isExpired now entry then
      let s₁ := (Cache.delete k s).2
      let s₂ : Cache T :=
        { s₁ with stats := { s₁.stats with misses := s₁.stats.misses + 1,
                                            expirations := s₁.stats.expirations + 1 } }
      (none, { s₂ with events := s₂.events ++ [CEvent.expire k entry] })
    else
      let entry₁ := { entry with accessCount := entry.accessCount + 1, lastAccess := now }
      (some entry.value,
       { s with store := mapSet k entry₁ s.store,
                stats := { s.stats with hits := s.stats.hits + 1 } })

/-- `Cache.has(key)`: same expiration check as `get`, but touching no
hit/miss/expiration counter and invoking no callback. -/
def Cache.has {T : Type} (now : Int) (k : String) (s : Cache T) : Bool × Cache T :=
  match mapGet k s.store with
  | none => (false, s)
  | some entry =>
    if isExpired now entry then (false, (Cache.delete k s).2)
    else (true, s)

/-- `Cache.clear()`: empties the store and resets all stats. -/
def Cache.clear {T : Type} (s : Cache T) : Cache T :=
  { s with store := [],
           stats := { size := 0, hits := 0, misses := 0, evictions := 0, expirations := 0 } }

/-- `Cache.getStats()` (the defensive copy is value equality here). -/
def Cache.getStats {T : Type} (s : Cache T) : CacheStats := s.stats

/-- `Cache.keys()`: current keys in insertion order. -/
def Cache.keys {T : Type} (s : Cache T) : List String := s.store.map Prod.fst

/-- One token of the regular expression built by
`PatternMatcher.convertPatternToRegex`: every pattern character that is
special in JS regex syntax is backslash-escaped (hence a literal), and
each `*` becomes `.*`. -/
inductive RTok where
  | lit (c : Char)
  | dotStar
  deriving Repr, DecidableEq

/-- `PatternMatcher.convertPatternToRegex`, as the token list of the
anchored regex `^...$`: character by character, `*` compiles to `.*` and
every other character to itself as a literal (the escaping pass makes
regex metacharacters literal; characters with no special meaning are
literal already). -/
def convertPatternToRegex (pattern : List Char) : List RTok :=
  pattern.map fun c => if c = '*' then RTok.dotStar else RTok.lit c

/-- JS regex `.` without the `s` (dotAll) flag — the source builds its
regexes with no flags — matches any character except a line terminator:
`\n`, `\r`, U+2028 (LINE SEPARATOR) and U+2029 (PARAGRAPH SEPARATOR). -/
def isLineTerminator (c : Char) : Bool :=
  c == '\n' || c == '\r' || c == '\u2028' || c == '\u2029'

/-- The suffixes of the candidate reachable by letting `.*` consume
characters, longest first: `.` excludes line terminators, so `.*` may
drop any prefix made of non-line-terminator characters and stops at the
first line terminator. -/
def starSuffixes : List Char → List (List Char)
  | [] => [[]]
  | c :: cs => (c :: cs) :: (if isLineTerminator c then [] else starSuffixes cs)

/-- Anchored matching semantics of the compiled regex (`RegExp.test` on
the `^...$` regex, no flags): a literal token consumes exactly its
character, and `.*` consumes an arbitrary prefix of non-line-terminator
characters. -/
def reTest : List RTok → List Char → Bool
  | [], s => s.isEmpty
  | RTok.lit _ :: _, [] => false
  | RTok.lit c :: ts, x :: xs => c == x && reTest ts xs
  | RTok.dotStar :: ts, s => (starSuffixes s).any fun s₁ => reTest ts s₁

/-- `PatternMatcher.matchesPattern(key, pattern)`: compile, then test the
whole key (the memoization of compiled regexes does not change results). -/
def matchesPattern (key pattern : String) : Bool :=
  reTest (convertPatternToRegex pattern.data) key.data

/-- The `for (const key of this.store.keys())` loop body of
`Cache.invalidatePattern`: delete every key the compiled regex accepts,
counting deletions. -/
def invLoop {T : Type} (pattern : String) :
    List (String × CacheEntry T) → Nat × List (String × CacheEntry T)
  | [] => (0, [])
  | (k, e) :: rest =>
    let r := invLoop pattern rest
    if matchesPattern k pattern then (r.1 + 1, r.2) else (r.1, (k, e) :: r.2)

/-- `Cache.invalidatePattern(pattern)`: scans all keys, deletes matches,
updates the size stat once, returns the count of deletions. -/
def Cache.invalidatePattern {T : Type} (pattern : String) (s : Cache T) :
    Nat × Cache T :=
  let r := invLoop pattern s.store
  (r.1, { s with store := r.2, stats := { s.stats with size := r.2.length } })

/-- State of the `TTLCache<T>` decorator from
`src/cache/infrastructure/TTLCache.ts`: the inherited engine state, the
`cleanupInterval` timer handle (`true` while a timer is scheduled), the
`isDestroyed` flag, and an instrumentation counter of `clearInterval`
calls. -/
structure TTLCache (T : Type) where
  base : Cache T
  cleanupInterval : Bool
  isDestroyed : Bool
  cancellations : Nat
  deriving Repr, DecidableEq

/-- `new TTLCache(config)`: fresh engine state, timer scheduled by
`startCleanup`, not destroyed. -/
def mkTTLCache {T : Type} (cfg : ResolvedConfig) : TTLCache T :=
  { base := mkCache cfg, cleanupInterval := true, isDestroyed := false,
    cancellations := 0 }

/-- `TTLCache.cleanup`, the body of each background sweep: delete every
expired entry directly from the store (no hit/miss recording, no
callback), and when at least one entry was removed, update the size stat
and call `recordExpiration()` once. -/
def TTLCache.cleanup {T : Type} (now : Int) (ts : TTLCache T) : TTLCache T :=
  if ts.isDestroyed then ts
  else
    let cleanedCount := (ts.base.store.filter fun p => isExpired now p.2).length
    let store₁ := ts.base.store.filter fun p => !(isExpired now p.2)
    let base₁ := { ts.base with store := store₁ }
    if cleanedCount > 0 then
      { ts with base :=
          { base₁ with stats := { base₁.stats with size := store₁.length,
                                                   expirations := base₁.stats.expirations + 1 } } }
    else
      { ts with base := base₁ }

/-- `TTLCache.clear` override: a no-op once destroyed. -/
def TTLCache.clear {T : Type} (ts : TTLCache T) : TTLCache T :=
  if ts.isDestroyed then ts else { ts with base := Cache.clear ts.base }

/-- `TTLCache.destroy`: sets `isDestroyed` first, cancels the timer if
scheduled, then calls `this.clear()` — which dynamically dispatches to
the `TTLCache.clear` override above. -/
def TTLCache.destroy {T : Type} (ts : TTLCache T) : TTLCache T :=
  if ts.isDestroyed then ts
  else
    let ts₁ := { ts with isDestroyed := true }
    let ts₂ := if ts₁.cleanupInterval then
                 { ts₁ with cleanupInterval := false,
                            cancellations := ts₁.cancellations + 1 }
               else ts₁
    TTLCache.clear ts₂

/-- `TTLCache.set` override: warn-and-return once destroyed. -/
def TTLCache.set {T : Type} (now : Int) (k : String) (v : T) (ttl : Option Int)
    (ts : TTLCache T) : TTLCache T :=
  if ts.isDestroyed then ts else { ts with base := Cache.set now k v ttl ts.base }

/-- `TTLCache.get` override: `undefined` once destroyed. -/
def TTLCache.get {T : Type} (now : Int) (k : String) (ts : TTLCache T) :
    Option T × TTLCache T :=
  if ts.isDestroyed then (none, ts)
  else
    let r := Cache.get now k ts.base
    (r.1, { ts with base := r.2 })

/-- `TTLCache.has` override: `false` once destroyed. -/
def TTLCache.has {T : Type} (now : Int) (k : String) (ts : TTLCache T) :
    Bool × TTLCache T :=
  if ts.isDestroyed then (false, ts)
  else
    let r := Cache.has now k ts.base
    (r.1, { ts with base := r.2 })

/-- `TTLCache.delete` override: `false` once destroyed. -/
def TTLCache.delete {T : Type} (k : String) (ts : TTLCache T) :
    Bool × TTLCache T :=
  if ts.isDestroyed then (false, ts)
  else
    let r := Cache.delete k ts.base
    (r.1, { ts with base := r.2 })

/-- Minimum of a list of metrics, `none` on the empty list (spec side). -/
def specMinVal : List Int → Option Int
  | [] => none
  | a :: rest =>
    match specMinVal rest with
    | none => some a
    | some b => some (min a b)

/-- Modelled from the spec's words for the eviction strategies: the key
minimizing the metric `f`, ties broken by the first key encountered in
iteration order; no candidate on an empty entry set. -/
def specFirstMinKey {T : Type} (f : CacheEntry T → Int)
    (entries : List (String × CacheEntry T)) : Option String :=
  match specMinVal (entries.map fun p => f p.2) with
  | none => none
  | some m => (entries.find? fun p => f p.2 == m).map Prod.fst

/-- Modelled from the amended claim's words for the glob pattern
language: the pattern is read as literal characters, except that each
`*` matches any sequence of non-line-terminator characters (JS `.`
without the dotAll flag), including the empty one; the whole key must be
matched. `GlobMatches pattern key` relates pattern to key. -/
inductive GlobMatches : List Char → List Char → Prop
  | nil : GlobMatches [] []
  | lit {ps ks : List Char} (c : Char) (hc : c ≠ '*') (h : GlobMatches ps ks) :
      GlobMatches (c :: ps) (c :: ks)
  | starEmpty {ps ks : List Char} (h : GlobMatches ps ks) :
      GlobMatches ('*' :: ps) ks
  | starCons {ps ks : List Char} (k : Char) (hk : isLineTerminator k = false)
      (h : GlobMatches ('*' :: ps) ks) : GlobMatches ('*' :: ps) (k :: ks)

/-- Modelled from the original claim's words, where each `*` matches any
sequence of characters with no restriction at all; used only to state
the counterexample that separates the claim from the program. -/
inductive GlobMatchesUnrestricted : List Char → List Char → Prop
  | nil : GlobMatchesUnrestricted [] []
  | lit {ps ks : List Char} (c : Char) (hc : c ≠ '*')
      (h : GlobMatchesUnrestricted ps ks) :
      GlobMatchesUnrestricted (c :: ps) (c :: ks)
  | starEmpty {ps ks : List Char} (h : GlobMatchesUnrestricted ps ks) :
      GlobMatchesUnrestricted ('*' :: ps) ks
  | starCons {ps ks : List Char} (k : Char)
      (h : GlobMatchesUnrestricted ('*' :: ps) ks) :
      GlobMatchesUnrestricted ('*' :: ps) (k :: ks)

/-- A sample non-expired-at-time-5 entry: value 7, created at 0, TTL 5. -/
def entA : CacheEntry Nat :=
  { value := 7, timestamp := 0, ttl := 5, accessCount := 0, lastAccess := 0 }

/-- A second sample entry with a long TTL. -/
def entB : CacheEntry Nat :=
  { value := 8, timestamp := 0, ttl := 100, accessCount := 2, lastAccess := 3 }

/-- A sample cache holding `entA` at key `k` and `entB` at key `j`. -/
def exCache : Cache Nat :=
  { store := [("k", entA), ("j", entB)],
    config := { maxSize := 100, defaultTTL := 42 },
    stats := { size := 2, hits := 0, misses := 0, evictions := 0, expirations := 0 },
    events := [] }

/-- The sample cache at full capacity (`maxSize = 2`, two entries). -/
def capCache : Cache Nat :=
  { store := [("k", entA), ("j", entB)],
    config := { maxSize := 2, defaultTTL := 42 },
    stats := { size := 2, hits := 0, misses := 0, evictions := 0, expirations := 0 },
    events := [] }

/-- A TTL-decorated cache whose two entries are both expired at time 100
(TTLs 5 and 7, created at 0). -/
def exTTL : TTLCache Nat :=
  { base := { store := [("a", entA), ("b", { entB with ttl := 7 })],
              config := { maxSize := 100, defaultTTL := 42 },
              stats := { size := 2, hits := 4, misses := 3, evictions := 0, expirations := 0 },
              events := [] },
    cleanupInterval := true, isDestroyed := false, cancellations := 0 }

/-- A TTL-decorated cache built through the public operations, mirroring
the repository test that sets two keys and destroys the cache. -/
def exTTLBuilt : TTLCache Nat :=
  TTLCache.set 0 "key2" 2 none (TTLCache.set 0 "key1" 1 none
    (mkTTLCache { maxSize := 100, defaultTTL := 42 }))

theorem mapGet_mapSet_self {E : Type} (k : String) (v : E) (l : List (String × E)) :
    mapGet k (mapSet k v l) = some v := by
  induction l with
  | nil => simp [mapSet, mapGet]
  | cons p rest ih =>
    by_cases h : p.1 = k
    · simp [mapSet, mapGet, h]
    · simpa [mapSet, mapGet, h] using ih

theorem mapGet_mapSet_ne {E : Type} {k k₁ : String} (h : k₁ ≠ k) (v : E)
    (l : List (String × E)) : mapGet k₁ (mapSet k v l) = mapGet k₁ l := by
  induction l with
  | nil => simp [mapSet, mapGet, h.symm]
  | cons p rest ih =>
    by_cases hp : p.1 = k
    · simp [mapSet, mapGet, hp, h.symm]
    · by_cases hq : p.1 = k₁ <;> simp [mapSet, mapGet, hp, hq, h, ih]

theorem evictOne_config {T : Type} (s : Cache T) : (evictOne s).config = s.config := by
  unfold evictOne
  split
  · rfl
  · split
    · rfl
    · dsimp only
      split <;> rfl

theorem evictOne_hits_misses {T : Type} (s : Cache T) :
    (evictOne s).stats.hits = s.stats.hits ∧ (evictOne s).stats.misses = s.stats.misses := by
  unfold evictOne
  split
  · exact ⟨rfl, rfl⟩
  · split
    · exact ⟨rfl, rfl⟩
    · dsimp only
      split <;> exact ⟨rfl, rfl⟩

/-- C2 counterexample: with `defaultTTL = 42`, calling `set` with the
explicit ttl `0` stores an entry whose `ttl` is `42`, not the provided
`0` — the claim that an explicitly given `ttl = 0` is honored is false. -/
theorem set_ttl_zero_cex :
    mapGet "k" (Cache.set 0 "k" 7 (some 0)
        (mkCache { maxSize := 100, defaultTTL := 42 }) : Cache Nat).store =
      some { value := 7, timestamp := 0, ttl := 42, accessCount := 0, lastAccess := 0 } ∧
    (42 : Int) ≠ 0 := by
  constructor
  · decide
  · decide

/-- C2 (amended): the stored entry's `ttlMs` equals the provided ttl
whenever the ttl is explicitly given and nonzero; when the ttl is omitted
or given as `0`, it equals `config.defaultTTL`. The new entry always has
`createdAt = lastAccessAt = now` and `accessCount = 0`. -/
theorem set_ttl_resolution {T : Type} (now : Int) (k : String) (v : T)
    (ttl : Option Int) (s : Cache T) :
    (∀ t : Int, ttl = some t → t ≠ 0 →
       mapGet k (Cache.set now k v ttl s).store =
         some { value := v, timestamp := now, ttl := t, accessCount := 0,
                lastAccess := now }) ∧
    (ttl = none →
       mapGet k (Cache.set now k v ttl s).store =
         some { value := v, timestamp := now, ttl := s.config.defaultTTL,
                accessCount := 0, lastAccess := now }) ∧
    (ttl = some 0 →
       mapGet k (Cache.set now k v ttl s).store =
         some { value := v, timestamp := now, ttl := s.config.defaultTTL,
                accessCount := 0, lastAccess := now }) := by
  have hcfg : (if s.store.length ≥ s.config.maxSize ∧ mapHas k s.store = false
               then evictOne s else s).config = s.config := by
    split
    · exact evictOne_config s
    · rfl
  refine ⟨?_, ?_, ?_⟩
  · intro t ht ht0
    subst ht
    simp [Cache.set, mapGet_mapSet_self, ht0, hcfg]
  · intro ht
    subst ht
    simp [Cache.set, mapGet_mapSet_self, hcfg]
  · intro ht
    subst ht
    simp [Cache.set, mapGet_mapSet_self, hcfg]

/-- C2 witness: with `defaultTTL = 42`, an explicit nonzero ttl `9` is
stored as given, an omitted ttl falls back to `42`, and the fresh entry
fields are as stated. -/
theorem set_ttl_resolution_witness :
    ((9 : Int) ≠ 0 ∧
     mapGet "k" (Cache.set 3 "k" 7 (some 9)
         (mkCache { maxSize := 100, defaultTTL := 42 }) : Cache Nat).store =
       some { value := 7, timestamp := 3, ttl := 9, accessCount := 0, lastAccess := 3 }) ∧
    mapGet "k" (Cache.set 3 "k" 7 none
        (mkCache { maxSize := 100, defaultTTL := 42 }) : Cache Nat).store =
      some { value := 7, timestamp := 3, ttl := 42, accessCount := 0, lastAccess := 3 } := by
  constructor
  · exact ⟨by decide,
      (set_ttl_resolution 3 "k" 7 (some 9)
        (mkCache { maxSize := 100, defaultTTL := 42 })).1 9 rfl (by decide)⟩
  · exact (set_ttl_resolution 3 "k" 7 none
      (mkCache { maxSize := 100, defaultTTL := 42 })).2.1 rfl

/-- C3 (code bug): with `maxSize = 1`, two `set` calls with the distinct
keys `""` and `"x"` leave the store with 2 entries and `stats.size = 2 >
maxSize`, and no eviction is recorded: the eviction guard
`if (keyToEvict)` treats the empty-string victim key as falsy and skips
the eviction, violating the capacity invariant. -/
theorem set_capacity_overflow_eval :
    (Cache.set 1 "x" 2 none (Cache.set 0 "" 1 none
        (mkCache { maxSize := 1, defaultTTL := 100 }) : Cache Nat)).store.length = 2 ∧
    (Cache.set 1 "x" 2 none (Cache.set 0 "" 1 none
        (mkCache { maxSize := 1, defaultTTL := 100 }) : Cache Nat)).stats.size = 2 ∧
    (Cache.set 1 "x" 2 none (Cache.set 0 "" 1 none
        (mkCache { maxSize := 1, defaultTTL := 100 }) : Cache Nat)).stats.evictions = 0 ∧
    ("" : String) ≠ "x" ∧ 2 > 1 := by
  refine ⟨by decide, by decide, by decide, by decide, by decide⟩

/-- C5 (confirmed): setting an already-present key while the store is at
capacity triggers no eviction: the evictions counter is unchanged, every
other key still maps to its old entry, and the key now holds the fresh
overwriting entry. -/
theorem set_update_no_evict {T : Type} (now : Int) (k : String) (v : T)
    (ttl : Option Int) (s : Cache T)
    (_hfull : s.store.length ≥ s.config.maxSize) (hpres : mapHas k s.store = true) :
    (Cache.set now k v ttl s).stats.evictions = s.stats.evictions ∧
    (∀ k₁, k₁ ≠ k → mapGet k₁ (Cache.set now k v ttl s).store = mapGet k₁ s.store) ∧
    (∃ t : Int, mapGet k (Cache.set now k v ttl s).store =
       some { value := v, timestamp := now, ttl := t, accessCount := 0,
              lastAccess := now }) := by
  refine ⟨?_, ?_, ?_⟩
  · simp [Cache.set, hpres]
  · intro k₁ hk
    simp [Cache.set, hpres, mapGet_mapSet_ne hk]
  · refine ⟨(match ttl with
      | some t => if t = 0 then s.config.defaultTTL else t
      | none => s.config.defaultTTL), ?_⟩
    simp [Cache.set, hpres, mapGet_mapSet_self]

/-- C5 witness: at capacity 2, overwriting the present key `k` leaves the
evictions counter at 0 and the entry at `j` untouched. -/
theorem set_update_no_evict_witness :
    capCache.store.length ≥ capCache.config.maxSize ∧
    mapHas "k" capCache.store = true ∧
    (Cache.set 9 "k" 99 none capCache).stats.evictions = capCache.stats.evictions ∧
    mapGet "j" (Cache.set 9 "k" 99 none capCache).store = mapGet "j" capCache.store := by
  have h := set_update_no_evict 9 "k" 99 none capCache (by decide) (by decide)
  exact ⟨by decide, by decide, h.1, h.2.1 "j" (by decide)⟩

/-- C4 (confirmed): for a stored entry, `get` within the TTL window
(`now - createdAt ≤ ttl`) returns the value, bumps `accessCount`,
refreshes `lastAccess` and records a hit; past the window
(`now - createdAt > ttl`) it deletes the entry, records a miss and an
expiration, fires `onExpire(key, entry)` and returns not-found. -/
theorem get_ttl_semantics {T : Type} (now : Int) (k : String) (s : Cache T)
    (e : CacheEntry T) (h : mapGet k s.store = some e) :
    (now - e.timestamp ≤ e.ttl →
      Cache.get now k s =
        (some e.value,
         { s with store := mapSet k { e with accessCount := e.accessCount + 1,
                                             lastAccess := now } s.store,
                  stats := { s.stats with hits := s.stats.hits + 1 } })) ∧
    (now - e.timestamp > e.ttl →
      Cache.get now k s =
        (none,
         { s with store := mapDelete k s.store,
                  stats := { s.stats with size := (mapDelete k s.store).length,
                                          misses := s.stats.misses + 1,
                                          expirations := s.stats.expirations + 1 },
                  events := s.events ++ [CEvent.expire k e] })) := by
  constructor
  · intro hle
    have hexp : isExpired now e = false := by
      simp only [isExpired, decide_eq_false_iff_not]
      omega
    simp [Cache.get, h, hexp]
  · intro hgt
    have hexp : isExpired now e = true := by
      simp only [isExpired, decide_eq_true_eq]
      omega
    have hhas : mapHas k s.store = true := by simp [mapHas, h]
    simp [Cache.get, h, hexp, Cache.delete, hhas]

/-- C4 witness: at time 5 the entry `entA` (TTL 5, created at 0) is
served as a hit; at time 6 it is expired, removed, counted as miss and
expiration, and the `onExpire` callback fires. -/
theorem get_ttl_semantics_witness :
    mapGet "k" exCache.store = some entA ∧
    ((5 : Int) - entA.timestamp ≤ entA.ttl ∧ (Cache.get 5 "k" exCache).1 = some 7) ∧
    ((6 : Int) - entA.timestamp > entA.ttl ∧ (Cache.get 6 "k" exCache).1 = none ∧
      (Cache.get 6 "k" exCache).2.stats.expirations = 1 ∧
      (Cache.get 6 "k" exCache).2.events = [CEvent.expire "k" entA]) := by
  have h5 := (get_ttl_semantics 5 "k" exCache entA (by decide)).1 (by decide)
  have h6 := (get_ttl_semantics 6 "k" exCache entA (by decide)).2 (by decide)
  refine ⟨by decide, ⟨by decide, ?_⟩, by decide, ?_, ?_, ?_⟩
  · simp [h5, entA]
  · simp [h6]
  · rw [h6]; decide
  · rw [h6]; decide

/-- C10 (confirmed): finding an expired entry, `has` deletes it and
returns false, updating only the size stat: hits, misses, expirations
and the callback log are untouched (no `onExpire`). -/
theorem has_expired_frame {T : Type} (now : Int) (k : String) (s : Cache T)
    (e : CacheEntry T) (h : mapGet k s.store = some e)
    (hexp : isExpired now e = true) :
    Cache.has now k s =
      (false, { s with store := mapDelete k s.store,
                       stats := { s.stats with size := (mapDelete k s.store).length } }) ∧
    (Cache.has now k s).2.stats.hits = s.stats.hits ∧
    (Cache.has now k s).2.stats.misses = s.stats.misses ∧
    (Cache.has now k s).2.stats.expirations = s.stats.expirations ∧
    (Cache.has now k s).2.events = s.events := by
  have hhas : mapHas k s.store = true := by simp [mapHas, h]
  have h1 : Cache.has now k s =
      (false, { s with store := mapDelete k s.store,
                       stats := { s.stats with size := (mapDelete k s.store).length } }) := by
    simp [Cache.has, h, hexp, Cache.delete, hhas]
  exact ⟨h1, by rw [h1], by rw [h1], by rw [h1], by rw [h1]⟩

/-- C10 witness: `has` at time 6 on the expired `entA` returns false,
removes the entry, and leaves hits, misses, expirations and the callback
log unchanged. -/
theorem has_expired_frame_witness :
    mapGet "k" exCache.store = some entA ∧ isExpired 6 entA = true ∧
    (Cache.has 6 "k" exCache).1 = false ∧
    (Cache.has 6 "k" exCache).2.stats.expirations = exCache.stats.expirations ∧
    (Cache.has 6 "k" exCache).2.events = exCache.events := by
  have h := has_expired_frame 6 "k" exCache entA (by decide) (by decide)
  refine ⟨by decide, by decide, ?_, h.2.2.2.1, h.2.2.2.2⟩
  simp [h.1]

theorem invLoop_eq {T : Type} (p : String) (l : List (String × CacheEntry T)) :
    invLoop p l = ((l.filter fun q => matchesPattern q.1 p).length,
                   l.filter fun q => !matchesPattern q.1 p) := by
  induction l with
  | nil => rfl
  | cons q rest ih =>
    obtain ⟨k, e⟩ := q
    by_cases h : matchesPattern k p <;> simp [invLoop, List.filter_cons, h, ih]

theorem mapGet_filter_unmatched {T : Type} (p : String) {k : String}
    (hk : matchesPattern k p = false) (l : List (String × CacheEntry T)) :
    mapGet k (l.filter fun q => !matchesPattern q.1 p) = mapGet k l := by
  induction l with
  | nil => rfl
  | cons q rest ih =>
    obtain ⟨k₁, e⟩ := q
    by_cases h1 : k₁ = k
    · subst h1
      simp [List.filter_cons, hk, mapGet]
    · by_cases h2 : matchesPattern k₁ p <;>
        simp [List.filter_cons, h2, mapGet, h1, ih]

theorem get_fst_eq_of_mapGet_eq {T : Type} (now : Int) (k : String)
    (s₁ s₂ : Cache T) (h : mapGet k s₁.store = mapGet k s₂.store) :
    (Cache.get now k s₁).1 = (Cache.get now k s₂).1 := by
  cases hm : mapGet k s₂.store with
  | none => simp [Cache.get, h.trans hm, hm]
  | some e =>
    by_cases he : isExpired now e <;> simp [Cache.get, h.trans hm, hm, he]

/-- C6 (confirmed): `invalidatePattern(p)` removes exactly the keys the
pattern matches, returns their count, and every non-matching key keeps
its entry (so a subsequent `get` returns the same value as before). -/
theorem invalidatePattern_exact {T : Type} (pattern : String) (s : Cache T) :
    (Cache.invalidatePattern pattern s).1 =
      (s.store.filter fun q => matchesPattern q.1 pattern).length ∧
    (Cache.invalidatePattern pattern s).2.store =
      s.store.filter (fun q => !matchesPattern q.1 pattern) ∧
    (∀ k, matchesPattern k pattern = false →
       mapGet k (Cache.invalidatePattern pattern s).2.store = mapGet k s.store) ∧
    (∀ now k, matchesPattern k pattern = false →
       (Cache.get now k (Cache.invalidatePattern pattern s).2).1 =
         (Cache.get now k s).1) := by
  have h2 : (Cache.invalidatePattern pattern s).2.store =
      s.store.filter (fun q => !matchesPattern q.1 pattern) := by
    simp [Cache.invalidatePattern, invLoop_eq]
  refine ⟨by simp [Cache.invalidatePattern, invLoop_eq], h2, ?_, ?_⟩
  · intro k hk
    rw [h2]
    exact mapGet_filter_unmatched pattern hk s.store
  · intro now k hk
    refine get_fst_eq_of_mapGet_eq now k _ s ?_
    rw [h2]
    exact mapGet_filter_unmatched pattern hk s.store

/-- C6 witness: invalidating `k*` on the sample cache removes exactly
key `k` (count 1) and leaves key `j` with its old entry and `get` result. -/
theorem invalidatePattern_exact_witness :
    (Cache.invalidatePattern "k*" exCache).1 = 1 ∧
    matchesPattern "j" "k*" = false ∧
    mapGet "j" (Cache.invalidatePattern "k*" exCache).2.store = mapGet "j" exCache.store ∧
    (Cache.get 1 "j" (Cache.invalidatePattern "k*" exCache).2).1 =
      (Cache.get 1 "j" exCache).1 := by
  have h := invalidatePattern_exact "k*" exCache
  refine ⟨?_, by decide, h.2.2.1 "j" (by decide), h.2.2.2 1 "j" (by decide)⟩
  rw [h.1]
  decide

/-- C1 counterexample: a sweep that removes two expired entries raises
the expirations counter by exactly 1, not by 2 as the claim states
(`recordExpiration()` is called once per sweep, not once per entry). -/
theorem cleanup_per_entry_cex :
    (exTTL.base.store.filter fun p => isExpired 100 p.2).length = 2 ∧
    exTTL.base.stats.expirations = 0 ∧
    (TTLCache.cleanup 100 exTTL).base.stats.expirations = 1 ∧
    (TTLCache.cleanup 100 exTTL).base.stats.expirations ≠
      exTTL.base.stats.expirations + 2 := by
  refine ⟨by decide, by decide, by decide, by decide⟩

/-- C1 (amended): each sweep on a non-destroyed cache removes exactly
the entries expired at sweep time, changes no hit or miss counter and no
callback log, and, when at least one entry was removed, updates the size
stat and increments the expirations counter exactly once for the whole
sweep; when nothing was removed the stats are untouched. -/
theorem cleanup_sweep {T : Type} (now : Int) (ts : TTLCache T)
    (h : ts.isDestroyed = false) :
    (TTLCache.cleanup now ts).base.store =
      ts.base.store.filter (fun p => !(isExpired now p.2)) ∧
    (TTLCache.cleanup now ts).base.stats.hits = ts.base.stats.hits ∧
    (TTLCache.cleanup now ts).base.stats.misses = ts.base.stats.misses ∧
    (TTLCache.cleanup now ts).base.events = ts.base.events ∧
    ((ts.base.store.filter fun p => isExpired now p.2).length > 0 →
       (TTLCache.cleanup now ts).base.stats.size =
         (ts.base.store.filter (fun p => !(isExpired now p.2))).length ∧
       (TTLCache.cleanup now ts).base.stats.expirations =
         ts.base.stats.expirations + 1) ∧
    ((ts.base.store.filter fun p => isExpired now p.2).length = 0 →
       (TTLCache.cleanup now ts).base.stats = ts.base.stats) := by
  by_cases hc : (ts.base.store.filter fun p => isExpired now p.2).length > 0
  · refine ⟨?_, ?_, ?_, ?_, fun _ => ⟨?_, ?_⟩, fun hz => absurd hz (by omega)⟩ <;>
      simp [TTLCache.cleanup, h, hc]
  · refine ⟨?_, ?_, ?_, ?_, fun hp => absurd hp hc, fun _ => ?_⟩ <;>
      simp [TTLCache.cleanup, h, hc]

/-- C1 witness: sweeping the sample TTL cache at time 100 removes its two
expired entries, leaves hits and misses unchanged, and raises the
expirations counter by exactly one. -/
theorem cleanup_sweep_witness :
    exTTL.isDestroyed = false ∧
    (TTLCache.cleanup 100 exTTL).base.store = [] ∧
    (TTLCache.cleanup 100 exTTL).base.stats.hits = exTTL.base.stats.hits ∧
    (TTLCache.cleanup 100 exTTL).base.stats.misses = exTTL.base.stats.misses ∧
    (TTLCache.cleanup 100 exTTL).base.stats.expirations =
      exTTL.base.stats.expirations + 1 := by
  have h := cleanup_sweep 100 exTTL (by decide)
  refine ⟨by decide, ?_, h.2.1, h.2.2.1, (h.2.2.2.2.1 (by decide)).2⟩
  rw [h.1]
  decide

/-- C9 (code bug): destroying a TTL cache holding two entries leaves the
underlying store and its size stat intact: `destroy` sets `isDestroyed`
before calling `this.clear()`, which dispatches to the destroyed-guarded
override and does nothing, so the store is never emptied (the repository
test expects `getStats().size` to be 0 afterwards). The timer is still
cancelled exactly once across repeated destroys. -/
theorem destroy_not_cleared_eval :
    (TTLCache.destroy exTTLBuilt).isDestroyed = true ∧
    (TTLCache.destroy exTTLBuilt).base.store.length = 2 ∧
    (TTLCache.destroy exTTLBuilt).base.stats.size = 2 ∧
    (TTLCache.destroy exTTLBuilt).base.store ≠ [] ∧
    (TTLCache.destroy exTTLBuilt).cancellations = 1 ∧
    (TTLCache.destroy (TTLCache.destroy exTTLBuilt)).cancellations = 1 := by
  refine ⟨by decide, by decide, by decide, by decide, by decide, by decide⟩

theorem convertPatternToRegex_cons (c : Char) (ps : List Char) :
    convertPatternToRegex (c :: ps) =
      (if c = '*' then RTok.dotStar else RTok.lit c) :: convertPatternToRegex ps := rfl

theorem self_mem_starSuffixes (l : List Char) : l ∈ starSuffixes l := by
  cases l <;> simp [starSuffixes]

theorem glob_star_of_mem {ps s : List Char} :
    ∀ {k : List Char}, s ∈ starSuffixes k → GlobMatches ps s →
      GlobMatches ('*' :: ps) k := by
  intro k
  induction k with
  | nil =>
    intro hs hg
    simp [starSuffixes] at hs
    subst hs
    exact GlobMatches.starEmpty hg
  | cons x xs ih =>
    intro hs hg
    rw [starSuffixes] at hs
    rcases List.mem_cons.mp hs with h | h
    · subst h
      exact GlobMatches.starEmpty hg
    · by_cases hx : isLineTerminator x
      · rw [if_pos hx] at h
        simp at h
      · rw [if_neg hx] at h
        exact GlobMatches.starCons x (Bool.eq_false_iff.mpr hx) (ih h hg)

theorem glob_star_inv_aux {p k : List Char} (h : GlobMatches p k) :
    ∀ ps, p = '*' :: ps → ∃ s, s ∈ starSuffixes k ∧ GlobMatches ps s := by
  induction h with
  | nil => intro ps hps; simp at hps
  | lit c hc h ih =>
    intro ps hps
    injection hps with h1 h2
    exact absurd h1 hc
  | starEmpty h =>
    intro ps hps
    injection hps with h1 h2
    subst h2
    exact ⟨_, self_mem_starSuffixes _, h⟩
  | starCons x hx h ih =>
    intro ps hps
    obtain ⟨s, hs, hg⟩ := ih ps hps
    refine ⟨s, ?_, hg⟩
    rw [starSuffixes, if_neg (by simp [hx])]
    exact List.mem_cons_of_mem _ hs

theorem reTest_glob {p : List Char} :
    ∀ k, reTest (convertPatternToRegex p) k = true ↔ GlobMatches p k := by
  induction p with
  | nil =>
    intro k
    constructor
    · intro h
      have hk : k = [] := by
        simpa [reTest, convertPatternToRegex] using h
      subst hk
      exact GlobMatches.nil
    · intro h
      cases h
      simp [reTest, convertPatternToRegex]
  | cons c ps ih =>
    intro k
    by_cases hc : c = '*'
    · subst hc
      constructor
      · intro h
        simp only [convertPatternToRegex_cons, if_pos rfl, reTest,
          List.any_eq_true] at h
        obtain ⟨s, hmem, hs⟩ := h
        exact glob_star_of_mem hmem ((ih s).mp hs)
      · intro h
        obtain ⟨s, hs, hg⟩ := glob_star_inv_aux h ps rfl
        simp only [convertPatternToRegex_cons, if_pos rfl, reTest,
          List.any_eq_true]
        exact ⟨s, hs, (ih s).mpr hg⟩
    · cases k with
      | nil =>
        simp only [convertPatternToRegex_cons, if_neg hc, reTest]
        constructor
        · intro h
          cases h
        · intro h
          cases h with
          | starEmpty h₁ => exact absurd rfl hc
      | cons x xs =>
        simp only [convertPatternToRegex_cons, if_neg hc, reTest,
          Bool.and_eq_true, beq_iff_eq]
        constructor
        · intro h
          obtain ⟨h1, h2⟩ := h
          subst h1
          exact GlobMatches.lit c hc ((ih xs).mp h2)
        · intro h
          cases h with
          | lit c₁ hc₁ h₁ => exact ⟨rfl, (ih xs).mpr h₁⟩
          | starEmpty h₁ => exact absurd rfl hc
          | starCons k₁ hk₁ h₁ => exact absurd rfl hc

/-- C7 counterexample: the claim reads `*` as matching any sequence of
characters, so it forces `matches("\n", "*")` to be true; but the
compiled regex uses `.` with no dotAll flag, which excludes line
terminators, and the program answers false (likewise for a newline in
the middle of the key). -/
theorem matchesPattern_newline_cex :
    matchesPattern "\n" "*" = false ∧
    GlobMatchesUnrestricted ['*'] ['\n'] ∧
    matchesPattern "a\nb" "a*" = false := by
  refine ⟨by decide, ?_, by decide⟩
  exact GlobMatchesUnrestricted.starCons '\n'
    (GlobMatchesUnrestricted.starEmpty GlobMatchesUnrestricted.nil)

/-- C7 (amended): the pattern matcher is anchored at both ends and
case-sensitive: `matchesPattern key pattern` holds iff the whole key is
matched by the pattern read as literal characters, with each `*` matching
any (possibly empty) sequence of non-line-terminator characters (JS `.`
without the dotAll flag excludes `\n`, `\r`, U+2028, U+2029); in
particular `ab` does not match `abc`, `a*` matches `abc`, `*` matches
the empty key and the empty pattern matches only the empty key. -/
theorem matchesPattern_glob_spec :
    (∀ key pattern : String,
       matchesPattern key pattern = true ↔ GlobMatches pattern.data key.data) ∧
    matchesPattern "abc" "ab" = false ∧
    matchesPattern "abc" "a*" = true ∧
    matchesPattern "" "*" = true ∧
    matchesPattern "" "" = true := by
  refine ⟨fun key pattern => ?_, by decide, by decide, by decide, by decide⟩
  exact reTest_glob key.data

theorem specMinVal_mem : ∀ {l : List Int} {m : Int}, specMinVal l = some m → m ∈ l := by
  intro l
  induction l with
  | nil => intro m h; simp [specMinVal] at h
  | cons a rest ih =>
    intro m h
    cases hr : specMinVal rest with
    | none =>
      rw [specMinVal, hr] at h
      simp only [Option.some.injEq] at h
      subst h
      exact List.mem_cons_self a rest
    | some b =>
      rw [specMinVal, hr] at h
      simp only [Option.some.injEq] at h
      subst h
      rcases le_total a b with hab | hab
      · rw [min_eq_left hab]
        exact List.mem_cons_self a rest
      · rw [min_eq_right hab]
        exact List.mem_cons_of_mem a (ih hr)

theorem foldl_stepMin_some {T : Type} (f : CacheEntry T → Int) :
    ∀ (l : List (String × CacheEntry T)) (bk : String) (bm : Int),
      l.foldl (stepMin f) (some (bk, bm)) =
        match specMinVal (l.map fun p => f p.2) with
        | none => some (bk, bm)
        | some m =>
          if m < bm then (l.find? fun p => f p.2 == m).map (fun p => (p.1, m))
          else some (bk, bm) := by
  intro l
  induction l with
  | nil => intro bk bm; rfl
  | cons p rest ih =>
    intro bk bm
    rw [List.foldl_cons]
    by_cases hp : f p.2 < bm
    · rw [show stepMin f (some (bk, bm)) p = some (p.1, f p.2) from by
        simp [stepMin, hp]]
      rw [ih]
      cases hr : specMinVal (rest.map fun q => f q.2) with
      | none =>
        simp only [List.map_cons, specMinVal, hr]
        rw [if_pos hp, List.find?_cons_of_pos _ (by simp)]
        rfl
      | some mr =>
        simp only [List.map_cons, specMinVal, hr]
        by_cases hmr : mr < f p.2
        · rw [min_eq_right (le_of_lt hmr)]
          rw [if_pos hmr, if_pos (lt_trans hmr hp)]
          rw [List.find?_cons_of_neg _ (by simp; omega)]
        · rw [min_eq_left (not_lt.mp hmr)]
          rw [if_neg hmr, if_pos hp]
          rw [List.find?_cons_of_pos _ (by simp)]
          rfl
    · rw [show stepMin f (some (bk, bm)) p = some (bk, bm) from by
        simp [stepMin, hp]]
      rw [ih]
      cases hr : specMinVal (rest.map fun q => f q.2) with
      | none =>
        simp only [List.map_cons, specMinVal, hr]
        rw [if_neg hp]
      | some mr =>
        simp only [List.map_cons, specMinVal, hr]
        by_cases hmr : mr < bm
        · have hmrp : mr < f p.2 := lt_of_lt_of_le hmr (not_lt.mp hp)
          rw [min_eq_right (le_of_lt hmrp)]
          rw [if_pos hmr, if_pos hmr]
          rw [List.find?_cons_of_neg _ (by simp; omega)]
        · rcases le_total (f p.2) mr with hab | hab
          · rw [min_eq_left hab, if_neg hp, if_neg hmr]
          · rw [min_eq_right hab, if_neg hmr, if_neg hmr]

theorem findMinFold_eq_spec {T : Type} (f : CacheEntry T → Int)
    (l : List (String × CacheEntry T)) : findMinFold f l = specFirstMinKey f l := by
  cases l with
  | nil => rfl
  | cons p rest =>
    unfold findMinFold specFirstMinKey
    rw [List.foldl_cons]
    rw [show stepMin f none p = some (p.1, f p.2) from rfl]
    rw [foldl_stepMin_some]
    cases hr : specMinVal (rest.map fun q => f q.2) with
    | none =>
      simp only [List.map_cons, specMinVal, hr]
      rw [List.find?_cons_of_pos _ (by simp)]
      rfl
    | some mr =>
      simp only [List.map_cons, specMinVal, hr]
      by_cases hmr : mr < f p.2
      · rw [min_eq_right (le_of_lt hmr)]
        rw [if_pos hmr]
        rw [List.find?_cons_of_neg _ (by simp; omega)]
        rw [Option.map_map]
        rfl
      · rw [min_eq_left (not_lt.mp hmr)]
        rw [if_neg hmr]
        rw [List.find?_cons_of_pos _ (by simp)]
        rfl

theorem specFirstMinKey_eq_none {T : Type} (f : CacheEntry T → Int)
    (l : List (String × CacheEntry T)) : specFirstMinKey f l = none ↔ l = [] := by
  cases l with
  | nil => simp [specFirstMinKey, specMinVal]
  | cons p rest =>
    constructor
    · intro h
      unfold specFirstMinKey at h
      cases hr : specMinVal ((p :: rest).map fun q => f q.2) with
      | none =>
        rw [List.map_cons, specMinVal] at hr
        rcases hx : specMinVal (rest.map fun q => f q.2) with _ | b <;>
          rw [hx] at hr <;> simp at hr
      | some m =>
        rw [hr] at h
        obtain ⟨q, hq, hfq⟩ := List.exists_of_mem_map (specMinVal_mem hr)
        have hne : (p :: rest).find? (fun r => f r.2 == m) ≠ none := by
          rw [← Option.isSome_iff_ne_none, List.find?_isSome]
          exact ⟨q, hq, by simp [hfq]⟩
        rcases hf : (p :: rest).find? (fun r => f r.2 == m) with _ | q₁
        · exact absurd hf hne
        · simp only [hf] at h
          simp at h
    · intro h
      cases h

/-- C8 (confirmed): every eviction strategy returns no candidate exactly
on the empty entry map; on any map, LRU returns the first key attaining
the minimum `lastAccess`, LFU the first attaining the minimum
`accessCount`, TTL the first attaining the minimum `timestamp + ttl`
(soonest expiry), and FIFO the first key in insertion order. -/
theorem strategies_min_spec {T : Type} (l : List (String × CacheEntry T)) :
    LRUStrategy.findKeyToEvict l = specFirstMinKey (fun e => e.lastAccess) l ∧
    LFUStrategy.findKeyToEvict l = specFirstMinKey (fun e => (e.accessCount : Int)) l ∧
    TTLStrategy.findKeyToEvict l = specFirstMinKey (fun e => e.timestamp + e.ttl) l ∧
    FIFOStrategy.findKeyToEvict l = l.head?.map Prod.fst ∧
    (LRUStrategy.findKeyToEvict l = none ↔ l = []) ∧
    (LFUStrategy.findKeyToEvict l = none ↔ l = []) ∧
    (TTLStrategy.findKeyToEvict l = none ↔ l = []) ∧
    (FIFOStrategy.findKeyToEvict l = none ↔ l = []) := by
  refine ⟨findMinFold_eq_spec _ l, findMinFold_eq_spec _ l, findMinFold_eq_spec _ l,
    rfl, ?_, ?_, ?_, ?_⟩
  · rw [LRUStrategy.findKeyToEvict, findMinFold_eq_spec]
    exact specFirstMinKey_eq_none _ l
  · rw [LFUStrategy.findKeyToEvict, findMinFold_eq_spec]
    exact specFirstMinKey_eq_none _ l
  · rw [TTLStrategy.findKeyToEvict, findMinFold_eq_spec]
    exact specFirstMinKey_eq_none _ l
  · cases l <;> simp [FIFOStrategy.findKeyToEvict]

end RNStorage
